import Mathlib

/-!
Verification of the rasterization core of `scripts/geojson2raster.py`.

The script converts a polygon boundary into a binary raster mask.  The
embedding below models coordinates as rationals (the script uses IEEE
doubles only through `numpy.linspace` and elementary arithmetic; all the
properties verified here are about the exact arithmetic structure of the
grid, the loop structure of the rasterizer and the control flow of the
pipeline).  The point-in-polygon containment test is performed by the
external geometry library (an external collaborator with a narrow
contract); it is modelled as an abstract predicate `ℚ → ℚ → Bool`
supplied as a parameter, shared by the bulk vectorized path and the
prepared-geometry fallback path (a prepared geometry is documented as a
performance-only wrapper with identical query semantics).
-/

/-- An axis-aligned bounding box `(minx, miny, maxx, maxy)`, as returned
by `geom.bounds` in the script. -/
structure Bounds where
  minx : ℚ
  miny : ℚ
  maxx : ℚ
  maxy : ℚ
deriving DecidableEq, Repr

/-- Embeds `np.linspace(start, stop, num=n, endpoint=False)`: `n` evenly
spaced samples `start + k * (stop - start) / n` for `k = 0, …, n-1`. -/
def linspace_no_endpoint (start stop : ℚ) (num : ℕ) : List ℚ :=
  (List.range num).map (fun (k : ℕ) => start + (k : ℚ) * ((stop - start) / (num : ℚ)))

/-- Embeds `grid_sample_points(bounds, width, height)` (script lines
63–70): pixel-center X samples, pixel-center Y samples, with the Y
sequence reversed so row 0 is the top (maximum Y). -/
def grid_sample_points (b : Bounds) (width height : ℕ) : List ℚ × List ℚ :=
  let xs := (linspace_no_endpoint b.minx b.maxx width).map
    (fun x => x + (b.maxx - b.minx) / (2 * (width : ℚ)))
  let ys := (linspace_no_endpoint b.miny b.maxy height).map
    (fun y => y + (b.maxy - b.miny) / (2 * (height : ℚ)))
  (xs, ys.reverse)

/-- The bulk vectorized path of `rasterize_vectorized` (script lines
78–83): `np.meshgrid(xs, ys)` gives `X[i][j] = xs[j]`, `Y[i][j] = ys[i]`,
and `vectorized.contains(poly, X, Y).astype(np.uint8)` classifies every
grid point elementwise with the containment predicate `c`. -/
def rasterize_bulk (c : ℚ → ℚ → Bool) (xs ys : List ℚ) : List (List ℕ) :=
  ys.map (fun y => xs.map (fun x => if c x y then 1 else 0))

/-- Embeds `np.zeros((h, w), dtype=np.uint8)`. -/
def np_zeros (h w : ℕ) : List (List ℕ) :=
  List.replicate h (List.replicate w 0)

/-- Embeds the element assignment `mask[i, j] = v` on a 2-D array
(out-of-range indices leave the array unchanged, which never occurs in
the verified runs). -/
def mask_set (m : List (List ℕ)) (i j : ℕ) (v : ℕ) : List (List ℕ) :=
  m.set i ((m.getD i []).set j v)

/-- The per-point fallback path of `rasterize_vectorized` (script lines
85–93): a zero-initialized `H×W` array, then nested loops
`for i, y in enumerate(ys): for j, x in enumerate(xs):` setting
`mask[i, j] = 1` whenever the prepared geometry contains `(x, y)`.  The
prepared geometry answers exactly the containment predicate `c`. -/
def rasterize_fallback (c : ℚ → ℚ → Bool) (xs ys : List ℚ) : List (List ℕ) :=
  ys.enum.foldl
    (fun mask iy =>
      xs.enum.foldl
        (fun mask jx => if c jx.2 iy.2 then mask_set mask iy.1 jx.1 1 else mask)
        mask)
    (np_zeros ys.length xs.length)

/-- Embeds `rasterize_vectorized(poly, xs, ys)` (script lines 72–93): the
bulk vectorized path when the capability is available, the
prepared-geometry loop otherwise. -/
def rasterize_vectorized (has_vectorized : Bool) (c : ℚ → ℚ → Bool)
    (xs ys : List ℚ) : List (List ℕ) :=
  if has_vectorized then rasterize_bulk c xs ys else rasterize_fallback c xs ys

/-- Embeds the `uint8` complement `1 - v` (numpy wraps modulo 256) used by
`mask01 = 1 - mask01` at script line 160. -/
def invert_cell (v : ℕ) : ℕ :=
  (257 - v % 256) % 256

/-- Embeds `mask01 = 1 - mask01` (script lines 159–160): every cell is
complemented. -/
def invert_mask (m : List (List ℕ)) : List (List ℕ) :=
  m.map (fun row => row.map invert_cell)

/-- The geometry types the script distinguishes (via `isinstance` checks
and the presence of the `.geoms` attribute).  Rings and parts carry their
2-D coordinates as rationals. -/
inductive Geometry where
  | point : ℚ × ℚ → Geometry
  | lineString : List (ℚ × ℚ) → Geometry
  | polygon : List (List (ℚ × ℚ)) → Geometry
  | multiPoint : List (ℚ × ℚ) → Geometry
  | multiLineString : List (List (ℚ × ℚ)) → Geometry
  | multiPolygon : List (List (List (ℚ × ℚ))) → Geometry
  | geometryCollection : List Geometry → Geometry
deriving Repr

/-- Embeds `isinstance(g, (Polygon, MultiPolygon))`. -/
def isPolygonal : Geometry → Bool
  | .polygon _ => true
  | .multiPolygon _ => true
  | _ => false

/-- The member geometries exposed by the `.geoms` attribute; `none` for
the atomic types `Point` and `LineString`, whose missing attribute raises
`AttributeError` in the script. -/
def sub_geoms : Geometry → Option (List Geometry)
  | .multiPoint ps => some (ps.map .point)
  | .multiLineString ls => some (ls.map .lineString)
  | .multiPolygon ps => some (ps.map .polygon)
  | .geometryCollection gs => some gs
  | _ => none

/-- The polygon parts of a polygonal geometry, as flattened by
`(g.geoms if isinstance(g, MultiPolygon) else [g])` at script line 103:
a `Polygon` contributes itself, a `MultiPolygon` its parts. -/
def polygonParts : Geometry → List (List (List (ℚ × ℚ)))
  | .polygon rs => [rs]
  | .multiPolygon ps => ps
  | _ => []

/-- Embeds `ensure_polygon(geom)` (script lines 95–105): polygonal input
passes through; otherwise the polygonal members of `.geoms` are collected
into one `MultiPolygon`; no members (`polys == []`) or no `.geoms`
attribute at all raise `ValueError` (the spec's `GeometryError`). -/
def ensure_polygon (g : Geometry) : Except String Geometry :=
  if isPolygonal g then .ok g
  else
    match sub_geoms g with
    | none => .error "Unsupported geometry type for rasterization."
    | some gs =>
      let polys := gs.filter isPolygonal
      if polys.isEmpty then .error "No polygonal geometry found."
      else .ok (.multiPolygon ((polys.map polygonParts).flatten))

/-- Whether the geometry has any polygonal part at all: itself, or a
polygonal member of its `.geoms` (the loaded geometry is the output of a
geometric union, which never nests collections). -/
def has_polygonal_part (g : Geometry) : Bool :=
  isPolygonal g ||
    (match sub_geoms g with
     | some gs => gs.any isPolygonal
     | none => false)

/-- All 2-D coordinates of a geometry, in order; `geom.bounds` is the
componentwise min/max over these. -/
def coords : Geometry → List (ℚ × ℚ)
  | .point p => [p]
  | .lineString ps => ps
  | .polygon rs => rs.flatten
  | .multiPoint ps => ps
  | .multiLineString ls => ls.flatten
  | .multiPolygon ps => (ps.map List.flatten).flatten
  | .geometryCollection gs => (gs.attach.map (fun g => coords g.1)).flatten
decreasing_by
  have := List.sizeOf_lt_of_mem g.2
  simp only [Geometry.geometryCollection.sizeOf_spec]
  omega

/-- Embeds `geom.bounds` (script line 153): the componentwise minima and
maxima of the geometry's coordinates; `none` for an empty geometry (whose
bounds tuple the script could not unpack). -/
def geom_bounds (g : Geometry) : Option Bounds :=
  match coords g with
  | [] => none
  | p :: ps =>
    some { minx := ps.foldl (fun a q => min a q.1) p.1
           miny := ps.foldl (fun a q => min a q.2) p.2
           maxx := ps.foldl (fun a q => max a q.1) p.1
           maxy := ps.foldl (fun a q => max a q.2) p.2 }

/-- A geometry together with its CRS descriptor, as carried by the
single-row GeoDataFrame of the script. -/
structure GeoDF where
  geom : Geometry
  crs : Option String

/-- Embeds `maybe_project_to_utm(gdf, use_utm)` (script lines 53–61).
The external estimation/reprojection (`estimate_utm_crs` + `to_crs`) is
the parameter `project`; an exception from it is the `.error` case.  The
second component is the warning printed to stderr, `none` when no warning
is emitted. -/
def maybe_project_to_utm (project : GeoDF → Except String GeoDF)
    (gdf : GeoDF) (use_utm : Bool) : GeoDF × Option String :=
  if use_utm = false then (gdf, none)
  else
    match project gdf with
    | .ok g => (g, none)
    | .error e =>
      (gdf, some ("[warn] Could not project to UTM automatically: " ++ e ++
        "\nProceeding in original CRS."))

/-- The configuration surface of the core: positive width and height and
the invert flag (script lines 32–38). -/
structure RasterConfig where
  width : ℕ
  height : ℕ
  invert : Bool
deriving DecidableEq, Repr

/-- The complete, consistent mask/bounds pair handed to the output
writer. -/
structure RasterOutput where
  mask : List (List ℕ)
  bounds : Bounds
  width : ℕ
  height : ℕ
deriving DecidableEq, Repr

/-- Embeds the core of `main` from the normalized geometry on (script
lines 151–160): geometry-type normalization, bounds extraction, grid
construction, rasterization and optional inversion.  `c` is the external
containment predicate of the (fixed) geometry reaching the rasterizer;
an `.error` result aborts before anything is written. -/
def run_pipeline (c : Geometry → ℚ → ℚ → Bool) (has_vectorized : Bool)
    (cfg : RasterConfig) (geom0 : Geometry) : Except String RasterOutput :=
  match ensure_polygon geom0 with
  | .error e => .error e
  | .ok geom =>
    match geom_bounds geom with
    | none => .error "cannot unpack bounds of an empty geometry"
    | some b =>
      let s := grid_sample_points b cfg.width cfg.height
      let mask01 := rasterize_vectorized has_vectorized (c geom) s.1 s.2
      let mask01 := if cfg.invert then invert_mask mask01 else mask01
      .ok { mask := mask01, bounds := b, width := cfg.width, height := cfg.height }

/-! ### Helper lemmas -/

/-- Writing back the row just read leaves the array unchanged. -/
theorem set_getD_self (m : List (List ℕ)) (i : ℕ) :
    m.set i (m.getD i []) = m := by
  by_cases h : i < m.length
  · rw [List.getD_eq_getElem _ _ h]
    apply List.ext_getElem?
    intro j
    rw [List.getElem?_set]
    split
    · next hij => subst hij; simp [h, List.getElem?_eq_getElem h]
    · rfl
  · exact List.set_eq_of_length_le (Nat.le_of_not_lt h)

/-- Reading back row `i` after `mask[i, j] = v`. -/
theorem mask_set_getD (m : List (List ℕ)) (i j v : ℕ) :
    (mask_set m i j v).getD i [] = (m.getD i []).set j v := by
  unfold mask_set
  by_cases h : i < m.length
  · rw [List.getD_eq_getElem _ _ (by simpa using h)]
    simp [h]
  · have h' : m.length ≤ i := Nat.le_of_not_lt h
    rw [List.set_eq_of_length_le (h' : m.length ≤ i)]
    rw [List.getD_eq_default _ _ h']
    simp

/-- Indexing an append at the length of the prefix. -/
theorem getD_append_cons {α : Type} (pre : List α) (a : α) (rest : List α) (d : α) :
    (pre ++ a :: rest).getD pre.length d = a := by
  rw [List.getD_eq_getElem _ _ (by simp)]
  rw [List.getElem_append_right (Nat.le_refl _)]
  simp

/-- Setting an append at the length of the prefix. -/
theorem set_append_cons {α : Type} (pre : List α) (a b : α) (rest : List α) :
    (pre ++ a :: rest).set pre.length b = pre ++ b :: rest := by
  rw [List.set_append_right _ _ (Nat.le_refl _)]
  simp

/-- The inner loop of the fallback rasterizer touches only row `i`: it is
the row-level loop applied to that row, written back in place. -/
theorem inner_fold_set (c : ℚ → ℚ → Bool) (y : ℚ) (i : ℕ) :
    ∀ (l : List (ℕ × ℚ)) (m : List (List ℕ)),
      l.foldl (fun mask jx => if c jx.2 y then mask_set mask i jx.1 1 else mask) m
        = m.set i (l.foldl (fun r jx => if c jx.2 y then r.set jx.1 1 else r) (m.getD i []))
  | [], m => by
    simp only [List.foldl_nil]
    exact (set_getD_self m i).symm
  | jx :: l, m => by
    simp only [List.foldl_cons]
    by_cases h : c jx.2 y
    · simp only [h, if_true]
      rw [inner_fold_set c y i l (mask_set m i jx.1 1)]
      rw [mask_set_getD]
      unfold mask_set
      rw [List.set_set]
    · simp only [h, if_false]
      exact inner_fold_set c y i l m

/-- The row-level loop over the enumerated X samples turns a zero row
(beyond an untouched prefix) into the pointwise classification of the
row. -/
theorem row_fold_spec (c : ℚ → ℚ → Bool) (y : ℚ) :
    ∀ (xs : List ℚ) (pre : List ℕ),
      (List.enumFrom pre.length xs).foldl
          (fun r jx => if c jx.2 y then r.set jx.1 1 else r)
          (pre ++ List.replicate xs.length 0)
        = pre ++ xs.map (fun x => if c x y then 1 else 0)
  | [], pre => by simp
  | x :: xs, pre => by
    simp only [List.enumFrom_cons, List.foldl_cons, List.length_cons,
      List.replicate_succ, List.map_cons]
    have hstep :
        (if c x y then (pre ++ 0 :: List.replicate xs.length 0).set pre.length 1
         else pre ++ 0 :: List.replicate xs.length 0)
          = (pre ++ [if c x y then 1 else 0]) ++ List.replicate xs.length 0 := by
      by_cases h : c x y
      · rw [if_pos h, if_pos h, set_append_cons]
        simp
      · rw [if_neg h, if_neg h]
        simp
    rw [hstep]
    have hlen : pre.length + 1 = (pre ++ [if c x y then 1 else 0]).length := by
      simp
    rw [hlen, row_fold_spec c y xs (pre ++ [if c x y then 1 else 0])]
    simp

/-- The outer loop of the fallback rasterizer over the enumerated Y
samples classifies each row of the zero-initialized block (beyond an
untouched prefix) independently. -/
theorem outer_fold_spec (c : ℚ → ℚ → Bool) (xs : List ℚ) :
    ∀ (ys : List ℚ) (pre : List (List ℕ)),
      (List.enumFrom pre.length ys).foldl
          (fun mask iy =>
            (xs.enum).foldl
              (fun mask jx => if c jx.2 iy.2 then mask_set mask iy.1 jx.1 1 else mask)
              mask)
          (pre ++ List.replicate ys.length (List.replicate xs.length 0))
        = pre ++ ys.map (fun y => xs.map (fun x => if c x y then 1 else 0))
  | [], pre => by simp
  | y :: ys, pre => by
    simp only [List.enumFrom_cons, List.foldl_cons, List.length_cons,
      List.replicate_succ, List.map_cons]
    rw [inner_fold_set c y pre.length xs.enum]
    rw [getD_append_cons]
    have hrow :
        xs.enum.foldl (fun r jx => if c jx.2 y then r.set jx.1 1 else r)
            (List.replicate xs.length 0)
          = xs.map (fun x => if c x y then 1 else 0) := by
      have := row_fold_spec c y xs []
      simpa [List.enum] using this
    rw [hrow, set_append_cons]
    have hlen : pre.length + 1 = (pre ++ [xs.map (fun x => if c x y then 1 else 0)]).length := by
      simp
    have hassoc :
        pre ++ (xs.map (fun x => if c x y then 1 else 0))
            :: List.replicate ys.length (List.replicate xs.length 0)
          = (pre ++ [xs.map (fun x => if c x y then 1 else 0)])
            ++ List.replicate ys.length (List.replicate xs.length 0) := by
      simp
    rw [hassoc, hlen, outer_fold_spec c xs ys (pre ++ [xs.map (fun x => if c x y then 1 else 0)])]
    simp

/-- The zero-initialize-and-set loop of the fallback path computes the
same grid as the elementwise map of the bulk path. -/
theorem rasterize_fallback_eq_bulk (c : ℚ → ℚ → Bool) (xs ys : List ℚ) :
    rasterize_fallback c xs ys = rasterize_bulk c xs ys := by
  unfold rasterize_fallback rasterize_bulk np_zeros
  have := outer_fold_spec c xs ys []
  simpa [List.enum] using this

/-- Either branch of `rasterize_vectorized` produces the bulk grid. -/
theorem rasterize_vectorized_eq_bulk (hv : Bool) (c : ℚ → ℚ → Bool) (xs ys : List ℚ) :
    rasterize_vectorized hv c xs ys = rasterize_bulk c xs ys := by
  unfold rasterize_vectorized
  cases hv
  · simp [rasterize_fallback_eq_bulk]
  · simp

/-- The X sample sequence written as an explicit map over `range`. -/
theorem grid_xs_eq (b : Bounds) (W H : ℕ) :
    (grid_sample_points b W H).1
      = (List.range W).map (fun (k : ℕ) =>
          b.minx + (k : ℚ) * ((b.maxx - b.minx) / (W : ℚ)) + (b.maxx - b.minx) / (2 * (W : ℚ))) := by
  simp only [grid_sample_points, linspace_no_endpoint, List.map_map]
  rfl

/-- The Y sample sequence written as the reversal of an explicit map over
`range`. -/
theorem grid_ys_eq (b : Bounds) (W H : ℕ) :
    (grid_sample_points b W H).2
      = ((List.range H).map (fun (k : ℕ) =>
          b.miny + (k : ℚ) * ((b.maxy - b.miny) / (H : ℚ)) + (b.maxy - b.miny) / (2 * (H : ℚ)))).reverse := by
  simp only [grid_sample_points, linspace_no_endpoint, List.map_map]
  rfl

theorem grid_xs_length (b : Bounds) (W H : ℕ) :
    (grid_sample_points b W H).1.length = W := by
  rw [grid_xs_eq, List.length_map, List.length_range]

theorem grid_ys_length (b : Bounds) (W H : ℕ) :
    (grid_sample_points b W H).2.length = H := by
  rw [grid_ys_eq, List.length_reverse, List.length_map, List.length_range]

theorem grid_xs_getD (b : Bounds) (W H k : ℕ) (hk : k < W) :
    (grid_sample_points b W H).1.getD k 0
      = b.minx + (k : ℚ) * ((b.maxx - b.minx) / (W : ℚ)) + (b.maxx - b.minx) / (2 * (W : ℚ)) := by
  rw [grid_xs_eq]
  rw [List.getD_eq_getElem _ _
    (show k < ((List.range W).map _).length by
      rw [List.length_map, List.length_range]; exact hk)]
  rw [List.getElem_map]
  rw [List.getElem_range]

theorem grid_ys_getD (b : Bounds) (W H i : ℕ) (hi : i < H) :
    (grid_sample_points b W H).2.getD i 0
      = b.miny + ((H - 1 - i : ℕ) : ℚ) * ((b.maxy - b.miny) / (H : ℚ))
          + (b.maxy - b.miny) / (2 * (H : ℚ)) := by
  rw [grid_ys_eq]
  rw [List.getD_eq_getElem _ _
    (show i < ((List.range H).map _).reverse.length by
      rw [List.length_reverse, List.length_map, List.length_range]; exact hi)]
  rw [List.getElem_reverse]
  simp only [List.length_map, List.length_range, List.getElem_map, List.getElem_range]

/-- Reading cell `[i, j]` of the bulk grid. -/
theorem rasterize_bulk_cell (c : ℚ → ℚ → Bool) (xs ys : List ℚ) (i j : ℕ)
    (hi : i < ys.length) (hj : j < xs.length) :
    ((rasterize_bulk c xs ys).getD i []).getD j 0
      = if c (xs.getD j 0) (ys.getD i 0) then 1 else 0 := by
  unfold rasterize_bulk
  rw [List.getD_eq_getElem _ _
    (show i < (ys.map _).length by rw [List.length_map]; exact hi)]
  rw [List.getElem_map]
  rw [List.getD_eq_getElem _ _
    (show j < (xs.map _).length by rw [List.length_map]; exact hj)]
  rw [List.getElem_map]
  rw [List.getD_eq_getElem _ _ hi, List.getD_eq_getElem _ _ hj]

/-- Shape and value range of the bulk grid. -/
theorem rasterize_bulk_shape (c : ℚ → ℚ → Bool) (xs ys : List ℚ) :
    (rasterize_bulk c xs ys).length = ys.length ∧
    (∀ row ∈ rasterize_bulk c xs ys, row.length = xs.length ∧
      ∀ v ∈ row, v = 0 ∨ v = 1) := by
  constructor
  · simp [rasterize_bulk]
  · intro row hrow
    simp only [rasterize_bulk, List.mem_map] at hrow
    obtain ⟨y, _, rfl⟩ := hrow
    constructor
    · simp
    · intro v hv
      simp only [List.mem_map] at hv
      obtain ⟨x, _, rfl⟩ := hv
      by_cases h : c x y
      · right; simp [h]
      · left; simp [h]

/-- C2: for every fixed geometry (represented by its containment
predicate) and fixed X/Y sample sequences, the bulk vectorized path and
the per-point prepared-geometry fallback path of the rasterizer produce
bit-identical masks. -/
theorem bulk_fallback_equiv (c : ℚ → ℚ → Bool) (xs ys : List ℚ) :
    rasterize_vectorized true c xs ys = rasterize_vectorized false c xs ys ∧
    rasterize_fallback c xs ys = rasterize_bulk c xs ys := by
  refine ⟨?_, rasterize_fallback_eq_bulk c xs ys⟩
  rw [rasterize_vectorized_eq_bulk, rasterize_vectorized_eq_bulk]

/-- C4: the X sample sequence has exactly `W` entries, entry `k` is
`minX + k*(maxX-minX)/W + (maxX-minX)/(2*W)`, and for `W = 1`
(symmetrically `H = 1` for Y) the single sample is the midpoint of the
axis extent. -/
theorem x_samples_cell_centers (b : Bounds) (W H : ℕ) (hW : 0 < W) :
    (grid_sample_points b W H).1.length = W ∧
    (∀ k, k < W → (grid_sample_points b W H).1.getD k 0
      = b.minx + (k : ℚ) * ((b.maxx - b.minx) / (W : ℚ)) + (b.maxx - b.minx) / (2 * (W : ℚ))) ∧
    (W = 1 → (grid_sample_points b W H).1 = [(b.minx + b.maxx) / 2]) ∧
    ((grid_sample_points b W 1).2 = [(b.miny + b.maxy) / 2]) := by
  refine ⟨grid_xs_length b W H, fun k hk => grid_xs_getD b W H k hk, ?_, ?_⟩
  · rintro rfl
    rw [grid_xs_eq]
    rw [show List.range 1 = [0] from rfl]
    simp only [List.map_cons, List.map_nil, Nat.cast_one, Nat.cast_zero]
    congr 1
    ring
  · rw [grid_ys_eq]
    rw [show List.range 1 = [0] from rfl]
    simp only [List.map_cons, List.map_nil, Nat.cast_one, Nat.cast_zero,
      List.reverse_cons, List.reverse_nil, List.nil_append]
    congr 1
    ring

/-- C9: a degenerate bounding box (zero width or zero height) does not
break grid construction or rasterization: the grid builder still returns
`W` and `H` samples, all equal on the degenerate axis, and a complete
`H×W` mask is produced. -/
theorem degenerate_bbox_total (b : Bounds) (W H : ℕ) (hv : Bool) (c : ℚ → ℚ → Bool)
    (_hW : 0 < W) (_hH : 0 < H) :
    (grid_sample_points b W H).1.length = W ∧
    (grid_sample_points b W H).2.length = H ∧
    (b.minx = b.maxx → ∀ x ∈ (grid_sample_points b W H).1, x = b.minx) ∧
    (b.miny = b.maxy → ∀ y ∈ (grid_sample_points b W H).2, y = b.miny) ∧
    (rasterize_vectorized hv c (grid_sample_points b W H).1
        (grid_sample_points b W H).2).length = H ∧
    (∀ row ∈ rasterize_vectorized hv c (grid_sample_points b W H).1
        (grid_sample_points b W H).2, row.length = W) := by
  refine ⟨grid_xs_length b W H, grid_ys_length b W H, ?_, ?_, ?_, ?_⟩
  · intro hdeg x hx
    rw [grid_xs_eq] at hx
    simp only [List.mem_map, List.mem_range] at hx
    obtain ⟨k, _, rfl⟩ := hx
    rw [← hdeg]
    simp
  · intro hdeg y hy
    rw [grid_ys_eq] at hy
    simp only [List.mem_reverse, List.mem_map, List.mem_range] at hy
    obtain ⟨k, _, rfl⟩ := hy
    rw [← hdeg]
    simp
  · rw [rasterize_vectorized_eq_bulk]
    rw [(rasterize_bulk_shape c _ _).1, grid_ys_length]
  · intro row hrow
    rw [rasterize_vectorized_eq_bulk] at hrow
    have := ((rasterize_bulk_shape c _ _).2 row hrow).1
    rw [this, grid_xs_length]

/-- C1: on sample sequences `xs` (length `W`) and `ys` (length `H`), the
rasterizer returns an `H×W` grid whose cell `[i, j]` is 1 iff the point
`(xs[j], ys[i])` satisfies the underlying containment predicate, and 0
otherwise. -/
theorem rasterizer_cell_correct (hv : Bool) (c : ℚ → ℚ → Bool) (xs ys : List ℚ) :
    (rasterize_vectorized hv c xs ys).length = ys.length ∧
    (∀ row ∈ rasterize_vectorized hv c xs ys, row.length = xs.length) ∧
    (∀ i j, i < ys.length → j < xs.length →
      (((rasterize_vectorized hv c xs ys).getD i []).getD j 0 = 1
        ↔ c (xs.getD j 0) (ys.getD i 0) = true) ∧
      (((rasterize_vectorized hv c xs ys).getD i []).getD j 0 = 0
        ↔ c (xs.getD j 0) (ys.getD i 0) = false)) := by
  rw [rasterize_vectorized_eq_bulk]
  refine ⟨(rasterize_bulk_shape c xs ys).1,
    fun row hrow => ((rasterize_bulk_shape c xs ys).2 row hrow).1, ?_⟩
  intro i j hi hj
  rw [rasterize_bulk_cell c xs ys i j hi hj]
  by_cases h : c (xs.getD j 0) (ys.getD i 0)
  · simp [h]
  · simp [h]

/-- C3: the Y sample sequence is the reversal of the ascending
half-cell-shifted sequence, index 0 lies half a cell below `maxY`; and
when the containment predicate only holds strictly above the horizontal
midline of the box, every cell in rows `[H/2, H)` of the mask is 0. -/
theorem y_reversed_northern_rows (b : Bounds) (W H : ℕ) (hv : Bool) (c : ℚ → ℚ → Bool)
    (hyy : b.miny < b.maxy) (hH : 0 < H) :
    (grid_sample_points b W H).2
      = ((List.range H).map (fun (k : ℕ) =>
          b.miny + (k : ℚ) * ((b.maxy - b.miny) / (H : ℚ))
            + (b.maxy - b.miny) / (2 * (H : ℚ)))).reverse ∧
    (grid_sample_points b W H).2.getD 0 0
      = b.maxy - (b.maxy - b.miny) / (2 * (H : ℚ)) ∧
    ((∀ x y, c x y = true → (b.miny + b.maxy) / 2 < y) →
      ∀ i j, H / 2 ≤ i → i < H → j < W →
        ((rasterize_vectorized hv c (grid_sample_points b W H).1
            (grid_sample_points b W H).2).getD i []).getD j 0 = 0) := by
  have hHQ : (0 : ℚ) < (H : ℚ) := by exact_mod_cast hH
  refine ⟨grid_ys_eq b W H, ?_, ?_⟩
  · rw [grid_ys_getD b W H 0 hH]
    have hc : ((H - 1 - 0 : ℕ) : ℚ) = (H : ℚ) - 1 := by
      push_cast [Nat.sub_sub, Nat.cast_sub (by omega : 1 + 0 ≤ H)]
      ring
    rw [hc]
    field_simp
    ring
  · intro hnorth i j hi2 hiH hjW
    rw [rasterize_vectorized_eq_bulk]
    rw [rasterize_bulk_cell c _ _ i j (by rw [grid_ys_length]; exact hiH)
      (by rw [grid_xs_length]; exact hjW)]
    have hyval : (grid_sample_points b W H).2.getD i 0
        ≤ (b.miny + b.maxy) / 2 := by
      rw [grid_ys_getD b W H i hiH]
      have hk : 2 * (H - 1 - i) + 1 ≤ H := by omega
      have hkQ : ((2 * (H - 1 - i) + 1 : ℕ) : ℚ) ≤ (H : ℚ) := by exact_mod_cast hk
      have hE : (0 : ℚ) < b.maxy - b.miny := by linarith
      have h2H : (0 : ℚ) < 2 * (H : ℚ) := by linarith
      have key : ((H - 1 - i : ℕ) : ℚ) * ((b.maxy - b.miny) / (H : ℚ))
          + (b.maxy - b.miny) / (2 * (H : ℚ)) ≤ (b.maxy - b.miny) / 2 := by
        rw [← mul_div_assoc]
        rw [div_add_div _ _ (ne_of_gt hHQ) (ne_of_gt h2H)]
        rw [div_le_div_iff₀ (by nlinarith : (0 : ℚ) < (H : ℚ) * (2 * (H : ℚ)))
          (by norm_num : (0 : ℚ) < 2)]
        push_cast at hkQ
        nlinarith [mul_le_mul_of_nonneg_right hkQ
          (le_of_lt (mul_pos hE hHQ))]
      linarith [key]
    have hfalse : c ((grid_sample_points b W H).1.getD j 0)
        ((grid_sample_points b W H).2.getD i 0) = false := by
      by_contra hcontra
      have htrue : c ((grid_sample_points b W H).1.getD j 0)
          ((grid_sample_points b W H).2.getD i 0) = true := by
        revert hcontra
        cases c ((grid_sample_points b W H).1.getD j 0)
          ((grid_sample_points b W H).2.getD i 0) <;> simp
      have := hnorth _ _ htrue
      linarith
    rw [hfalse]
    simp

/-- C5: with the invert flag set, the pipeline applies the complement
after classification and before output; on a {0,1}-valued mask the
complement replaces every cell `v` by `1 - v`, and applying it twice
reproduces the mask exactly. -/
theorem invert_complement_involutive (m : List (List ℕ))
    (cg : Geometry → ℚ → ℚ → Bool) (hv : Bool) (W H : ℕ) (g : Geometry)
    (h01 : ∀ row ∈ m, ∀ v ∈ row, v = 0 ∨ v = 1) :
    invert_mask m = m.map (fun row => row.map (fun v => 1 - v)) ∧
    invert_mask (invert_mask m) = m ∧
    run_pipeline cg hv ⟨W, H, true⟩ g
      = (run_pipeline cg hv ⟨W, H, false⟩ g).map
          (fun o => { o with mask := invert_mask o.mask }) := by
  refine ⟨?_, ?_, ?_⟩
  · unfold invert_mask
    apply List.map_congr_left
    intro row hrow
    apply List.map_congr_left
    intro v hvmem
    rcases h01 row hrow v hvmem with rfl | rfl <;> rfl
  · unfold invert_mask
    rw [List.map_map]
    have hrows : ∀ row ∈ m, (List.map invert_cell ∘ List.map invert_cell) row = row := by
      intro row hrow
      simp only [Function.comp_apply, List.map_map]
      have hcells : ∀ v ∈ row, (invert_cell ∘ invert_cell) v = v := by
        intro v hvmem
        rcases h01 row hrow v hvmem with rfl | rfl <;> rfl
      rw [List.map_congr_left hcells]
      simp
    rw [List.map_congr_left hrows]
    simp
  · unfold run_pipeline
    cases hep : ensure_polygon g with
    | error e => rfl
    | ok geom =>
      dsimp only
      cases hb : geom_bounds geom with
      | none => rfl
      | some bb => rfl

/-- C6: when metric-frame projection is requested and the external
CRS-estimation/reprojection step fails, the normalizer emits a warning
and returns the geometry unmodified; when projection is not requested it
is an exact pass-through with no warning. -/
theorem projection_soft_degrade (project : GeoDF → Except String GeoDF) (gdf : GeoDF) :
    maybe_project_to_utm project gdf false = (gdf, none) ∧
    (∀ e, project gdf = .error e →
      maybe_project_to_utm project gdf true
        = (gdf, some ("[warn] Could not project to UTM automatically: " ++ e ++
            "\nProceeding in original CRS."))) := by
  constructor
  · rfl
  · intro e he
    unfold maybe_project_to_utm
    rw [he]
    rfl

/-- An ensure_polygon failure aborts the pipeline with the same error. -/
theorem run_pipeline_error (cg : Geometry → ℚ → ℚ → Bool) (hv : Bool)
    (cfg : RasterConfig) (g : Geometry) (e : String)
    (h : ensure_polygon g = .error e) :
    run_pipeline cg hv cfg g = .error e := by
  unfold run_pipeline
  rw [h]

/-- A geometry with no polygonal part makes `ensure_polygon` fail with
one of the two `ValueError` messages of the script. -/
theorem ensure_polygon_no_part (g : Geometry) (hno : has_polygonal_part g = false) :
    ∃ e, ensure_polygon g = .error e ∧
      (e = "No polygonal geometry found."
        ∨ e = "Unsupported geometry type for rasterization.") := by
  unfold has_polygonal_part at hno
  rw [Bool.or_eq_false_iff] at hno
  obtain ⟨h1, h2⟩ := hno
  unfold ensure_polygon
  rw [if_neg (by rw [h1]; exact Bool.false_ne_true)]
  cases hsub : sub_geoms g with
  | none =>
    exact ⟨"Unsupported geometry type for rasterization.", rfl, Or.inr rfl⟩
  | some gs =>
    rw [hsub] at h2
    dsimp only at h2
    have hfil : gs.filter isPolygonal = [] := by
      rw [List.filter_eq_nil_iff]
      intro a ha
      rw [List.any_eq_false] at h2
      exact h2 a ha
    dsimp only
    rw [hfil]
    exact ⟨"No polygonal geometry found.", rfl, Or.inl rfl⟩

/-- C7: a loaded geometry with no polygonal part at all aborts the
pipeline with a fatal error (one of the script's two `ValueError`
messages) before rasterization, so nothing is written; when polygonal
members do exist in a collection, exactly their polygon parts are passed
on, collected into one `MultiPolygon`. -/
theorem no_polygon_fatal_filter (cg : Geometry → ℚ → ℚ → Bool) (hv : Bool)
    (cfg : RasterConfig) (g : Geometry) :
    (has_polygonal_part g = false →
      ∃ e, run_pipeline cg hv cfg g = .error e ∧
        (e = "No polygonal geometry found."
          ∨ e = "Unsupported geometry type for rasterization.")) ∧
    (∀ gs, g = .geometryCollection gs → gs.filter isPolygonal ≠ [] →
      ensure_polygon g
        = .ok (.multiPolygon (((gs.filter isPolygonal).map polygonParts).flatten))) := by
  constructor
  · intro hno
    obtain ⟨e, he, hmsg⟩ := ensure_polygon_no_part g hno
    exact ⟨e, run_pipeline_error cg hv cfg g e he, hmsg⟩
  · rintro gs rfl hne
    unfold ensure_polygon
    rw [if_neg (by exact Bool.false_ne_true)]
    dsimp only [sub_geoms]
    rw [if_neg (fun hc => hne (List.isEmpty_iff.mp hc))]

/-- Shape and value range of the optionally inverted classified mask. -/
theorem processed_mask_shape (c : ℚ → ℚ → Bool) (hv inv : Bool) (xs ys : List ℚ) :
    (if inv then invert_mask (rasterize_vectorized hv c xs ys)
      else rasterize_vectorized hv c xs ys).length = ys.length ∧
    (∀ row ∈ (if inv then invert_mask (rasterize_vectorized hv c xs ys)
        else rasterize_vectorized hv c xs ys),
      row.length = xs.length ∧ ∀ v ∈ row, v = 0 ∨ v = 1) := by
  rw [rasterize_vectorized_eq_bulk]
  cases inv
  · simp only [Bool.false_eq_true, if_false]
    exact rasterize_bulk_shape c xs ys
  · simp only [if_true]
    constructor
    · rw [invert_mask, List.length_map, (rasterize_bulk_shape c xs ys).1]
    · intro row hrow
      rw [invert_mask, List.mem_map] at hrow
      obtain ⟨row', hrow', rfl⟩ := hrow
      obtain ⟨hlen', hval'⟩ := (rasterize_bulk_shape c xs ys).2 row' hrow'
      refine ⟨by rw [List.length_map, hlen'], ?_⟩
      intro v hvm
      rw [List.mem_map] at hvm
      obtain ⟨v', hv', rfl⟩ := hvm
      rcases hval' v' hv' with rfl | rfl
      · right; rfl
      · left; rfl

/-- C8: every successfully produced mask (after rasterization and after
the optional inversion) has exactly `height` rows, `width` columns, and
all cell values in {0,1}. -/
theorem mask_shape_binary (cg : Geometry → ℚ → ℚ → Bool) (hv : Bool)
    (cfg : RasterConfig) (g : Geometry) (out : RasterOutput)
    (_hW : 0 < cfg.width) (_hH : 0 < cfg.height)
    (hrun : run_pipeline cg hv cfg g = .ok out) :
    out.mask.length = cfg.height ∧
    ∀ row ∈ out.mask, row.length = cfg.width ∧ ∀ v ∈ row, v = 0 ∨ v = 1 := by
  unfold run_pipeline at hrun
  cases hep : ensure_polygon g with
  | error e =>
    rw [hep] at hrun
    exact absurd hrun (by simp)
  | ok geom =>
    rw [hep] at hrun
    dsimp only at hrun
    cases hb : geom_bounds geom with
    | none =>
      rw [hb] at hrun
      exact absurd hrun (by simp)
    | some b =>
      rw [hb] at hrun
      dsimp only at hrun
      have hout := Except.ok.inj hrun
      subst hout
      dsimp only
      have hshape := processed_mask_shape (cg geom) hv cfg.invert
        (grid_sample_points b cfg.width cfg.height).1
        (grid_sample_points b cfg.width cfg.height).2
      rw [grid_xs_length, grid_ys_length] at hshape
      exact hshape

/-- One-step unfolding of `coords` on a collection. -/
theorem coords_collection (gs : List Geometry) :
    coords (.geometryCollection gs) = (gs.map coords).flatten := by
  rw [coords]
  congr 1
  exact List.attach_map_coe gs coords

/-- Flattening the polygon parts of a list of polygonal geometries keeps
exactly their coordinates. -/
theorem coords_polygon_parts (l : List Geometry)
    (hl : ∀ p ∈ l, isPolygonal p = true) :
    ((l.map polygonParts).flatten.map List.flatten).flatten
      = (l.map coords).flatten := by
  induction l with
  | nil => rfl
  | cons p l ih =>
    have hp := hl p (by simp)
    have ih' := ih (fun q hq => hl q (by simp [hq]))
    simp only [List.map_cons, List.flatten_cons, List.map_append, List.flatten_append]
    rw [ih']
    congr 1
    cases p with
    | polygon rs => simp [polygonParts, coords]
    | multiPolygon ps => simp [polygonParts, coords]
    | point q => simp [isPolygonal] at hp
    | lineString qs => simp [isPolygonal] at hp
    | multiPoint qs => simp [isPolygonal] at hp
    | multiLineString qs => simp [isPolygonal] at hp
    | geometryCollection hs => simp [isPolygonal] at hp

/-- Characterization of a successful `ensure_polygon` on a collection. -/
theorem ensure_collection_ok (gs : List Geometry) (g : Geometry)
    (h : ensure_polygon (.geometryCollection gs) = .ok g) :
    g = .multiPolygon (((gs.filter isPolygonal).map polygonParts).flatten) := by
  unfold ensure_polygon at h
  rw [if_neg (by exact Bool.false_ne_true)] at h
  dsimp only [sub_geoms] at h
  by_cases hemp : (gs.filter isPolygonal).isEmpty
  · rw [if_pos hemp] at h
    exact absurd h (by simp)
  · rw [if_neg hemp] at h
    exact (Except.ok.inj h).symm

/-- C10: when a loaded geometry collection passes geometry-type
normalization, the geometry's coordinates — hence the bounding box used
for the grid and recorded in the output — come from the polygonal
members only; non-polygonal members never influence the bounds. -/
theorem bounds_from_polygonal_parts (gs : List Geometry) (g : Geometry)
    (h : ensure_polygon (.geometryCollection gs) = .ok g) :
    coords g = coords (.geometryCollection (gs.filter isPolygonal)) ∧
    geom_bounds g = geom_bounds (.geometryCollection (gs.filter isPolygonal)) ∧
    (∀ cg hv cfg out, run_pipeline cg hv cfg (.geometryCollection gs) = .ok out →
      some out.bounds = geom_bounds (.geometryCollection (gs.filter isPolygonal))) := by
  have hg := ensure_collection_ok gs g h
  subst hg
  have hcoords :
      coords (.multiPolygon (((gs.filter isPolygonal).map polygonParts).flatten))
        = coords (.geometryCollection (gs.filter isPolygonal)) := by
    rw [coords_collection]
    have hun : coords (.multiPolygon (((gs.filter isPolygonal).map polygonParts).flatten))
        = ((((gs.filter isPolygonal).map polygonParts).flatten).map List.flatten).flatten := by
      rw [coords]
    rw [hun]
    exact coords_polygon_parts (gs.filter isPolygonal)
      (fun p hp => (List.mem_filter.mp hp).2)
  have hbounds :
      geom_bounds (.multiPolygon (((gs.filter isPolygonal).map polygonParts).flatten))
        = geom_bounds (.geometryCollection (gs.filter isPolygonal)) := by
    unfold geom_bounds
    rw [hcoords]
  refine ⟨hcoords, hbounds, ?_⟩
  intro cg hv cfg out hrun
  unfold run_pipeline at hrun
  rw [h] at hrun
  dsimp only at hrun
  cases hb : geom_bounds (.multiPolygon (((gs.filter isPolygonal).map polygonParts).flatten)) with
  | none =>
    rw [hb] at hrun
    exact absurd hrun (by simp)
  | some b =>
    rw [hb] at hrun
    dsimp only at hrun
    have hout := Except.ok.inj hrun
    subst hout
    rw [← hbounds, hb]

/-! ### Concrete instantiations -/

/-- Concrete instance of the cell-correctness theorem. -/
theorem rasterizer_cell_correct_witness :
    ((rasterize_vectorized false (fun x y => decide (x < y)) [0] [1]).getD 0 []).getD 0 0 = 1
      ↔ (fun x y : ℚ => decide (x < y)) (List.getD [0] 0 0) (List.getD [1] 0 0) = true :=
  ((rasterizer_cell_correct false (fun x y => decide (x < y)) [0] [1]).2.2 0 0
    (by decide) (by decide)).1

/-- Concrete instance of the Y-orientation theorem: with a predicate
holding only strictly above the midline, the bottom row is 0. -/
theorem y_reversed_northern_rows_witness :
    ((rasterize_vectorized true
        (fun _ y => decide (((⟨0, 0, 0, 4⟩ : Bounds).miny + (⟨0, 0, 0, 4⟩ : Bounds).maxy) / 2 < y))
        (grid_sample_points ⟨0, 0, 0, 4⟩ 1 2).1
        (grid_sample_points ⟨0, 0, 0, 4⟩ 1 2).2).getD 1 []).getD 0 0 = 0 :=
  (y_reversed_northern_rows ⟨0, 0, 0, 4⟩ 1 2 true
      (fun _ y => decide (((⟨0, 0, 0, 4⟩ : Bounds).miny + (⟨0, 0, 0, 4⟩ : Bounds).maxy) / 2 < y))
      (by decide) (by decide)).2.2
    (fun _ y h => of_decide_eq_true h) 1 0 (by decide) (by decide) (by decide)

/-- Concrete instance of the X-sample theorem. -/
theorem x_samples_cell_centers_witness :
    (grid_sample_points ⟨0, 0, 0, 0⟩ 2 1).1.length = 2 :=
  (x_samples_cell_centers ⟨0, 0, 0, 0⟩ 2 1 (by decide)).1

/-- Concrete instance of the inversion theorem. -/
theorem invert_complement_involutive_witness :
    invert_mask [[0, 1]] = [[0, 1]].map (fun row => row.map (fun v => 1 - v)) :=
  (invert_complement_involutive [[0, 1]] (fun _ _ _ => false) true 1 1
    (.point (0, 0)) (by decide)).1

/-- Concrete instance of the projection soft-degrade theorem. -/
theorem projection_soft_degrade_witness :
    maybe_project_to_utm (fun _ => .error "no zone") ⟨.point (0, 0), none⟩ true
      = (⟨.point (0, 0), none⟩,
          some ("[warn] Could not project to UTM automatically: " ++ "no zone" ++
            "\nProceeding in original CRS.")) :=
  (projection_soft_degrade (fun _ => .error "no zone") ⟨.point (0, 0), none⟩).2
    "no zone" rfl

/-- Concrete instance of the no-polygonal-part theorem. -/
theorem no_polygon_fatal_filter_witness :
    ∃ e, run_pipeline (fun _ _ _ => false) true ⟨4, 4, false⟩
        (.geometryCollection [.point (0, 0)]) = .error e ∧
      (e = "No polygonal geometry found."
        ∨ e = "Unsupported geometry type for rasterization.") :=
  (no_polygon_fatal_filter (fun _ _ _ => false) true ⟨4, 4, false⟩
    (.geometryCollection [.point (0, 0)])).1 (by decide)

/-- Concrete instance of the mask-shape theorem. -/
theorem mask_shape_binary_witness :
    (RasterOutput.mk [[0]] ⟨0, 0, 0, 0⟩ 1 1).mask.length = 1 ∧
    ∀ row ∈ (RasterOutput.mk [[0]] ⟨0, 0, 0, 0⟩ 1 1).mask,
      row.length = 1 ∧ ∀ v ∈ row, v = 0 ∨ v = 1 :=
  mask_shape_binary (fun _ _ _ => false) true ⟨1, 1, false⟩ (.polygon [[(0, 0)]])
    ⟨[[0]], ⟨0, 0, 0, 0⟩, 1, 1⟩ (by decide) (by decide)
    (by simp [run_pipeline, ensure_polygon, isPolygonal, geom_bounds, coords,
      grid_sample_points, linspace_no_endpoint, rasterize_vectorized, rasterize_bulk,
      List.range_succ])

/-- Concrete instance of the degenerate-bounding-box theorem. -/
theorem degenerate_bbox_total_witness :
    (grid_sample_points ⟨0, 0, 0, 4⟩ 2 2).1.length = 2 ∧
    (grid_sample_points ⟨0, 0, 0, 4⟩ 2 2).2.length = 2 :=
  ⟨(degenerate_bbox_total ⟨0, 0, 0, 4⟩ 2 2 true (fun _ _ => false)
      (by decide) (by decide)).1,
    (degenerate_bbox_total ⟨0, 0, 0, 4⟩ 2 2 true (fun _ _ => false)
      (by decide) (by decide)).2.1⟩

/-- Concrete instance of the polygonal-bounds theorem. -/
theorem bounds_from_polygonal_parts_witness :
    geom_bounds (.multiPolygon [[[(0, 0)]]])
      = geom_bounds (.geometryCollection
          ([.point (1, 1), .polygon [[(0, 0)]]].filter isPolygonal)) :=
  (bounds_from_polygonal_parts [.point (1, 1), .polygon [[(0, 0)]]]
    (.multiPolygon [[[(0, 0)]]]) rfl).2.1
